import Mathlib

/-!
Verification of the real-time voice session pipeline of the SiteVoice
browser client (class VoiceSessionManager and the App-level transcription
callback).  The TypeScript source is embedded shallowly: machine integers
become Int/Nat with explicit wraparound, audio samples and clock times
become rationals (every value the code produces at these points is a
small dyadic rational, represented exactly), fallible host calls become
Except/Option, and the mutable fields of the manager become explicit
state records threaded through pure transition functions.
-/

namespace SiteVoice

/-! ## ECMAScript integer conversion and little-endian 16-bit packing

`Int16Array` element assignment applies ToInt16: truncate the number
toward zero, reduce modulo 2^16, reinterpret as signed.  The bytes of an
`Int16Array`, viewed through `Uint8Array`, are the little-endian bytes
of the unsigned 16-bit representation of each element. -/

/-- Truncation toward zero of a rational, as ECMAScript ToIntegerOrInfinity
does on a finite number. -/
def ratTrunc (q : ℚ) : ℤ := if 0 ≤ q then ⌊q⌋ else ⌈q⌉

/-- ECMAScript ToInt16 applied to an integer: reduce modulo 2^16 and
reinterpret the result as a signed 16-bit value. -/
def toInt16 (n : ℤ) : ℤ := (n + 32768) % 65536 - 32768

/-- Little-endian bytes of the unsigned 16-bit representation of a signed
16-bit value, as exposed by viewing an Int16Array buffer as a Uint8Array. -/
def int16ToBytes (n : ℤ) : List ℕ :=
  let u := (n % 65536).toNat
  [u % 256, u / 256]

/-- Reinterpret an unsigned 16-bit value as signed (two's complement). -/
def fromUint16 (u : ℕ) : ℤ := if u < 32768 then (u : ℤ) else (u : ℤ) - 65536

/-- Reading an even-length byte buffer as an Int16Array: consecutive
little-endian pairs, each reinterpreted as a signed 16-bit value. -/
def bytesToInt16 : List ℕ → List ℤ
  | lo :: hi :: rest => fromUint16 (lo + 256 * hi) :: bytesToInt16 rest
  | _ => []

/-! ## Binary/Text transcoder (VoiceSessionManager.encode / decode)

`encode` turns a byte buffer into a binary string and applies `btoa`,
producing standard base64; `decode` applies `atob` and reads the code
units back as bytes.  `atob` throws on malformed input, modelled as
`Option`.  Characters are modelled by `Char`. -/

/-- Character of the standard base64 alphabet at a sextet index. -/
def b64CharOf (n : ℕ) : Char :=
  if n < 26 then Char.ofNat (65 + n)
  else if n < 52 then Char.ofNat (97 + (n - 26))
  else if n < 62 then Char.ofNat (48 + (n - 52))
  else if n = 62 then '+' else '/'

/-- Index of a character in the standard base64 alphabet, none if absent. -/
def b64IndexOf (c : Char) : Option ℕ :=
  let n := c.toNat
  if 65 ≤ n ∧ n ≤ 90 then some (n - 65)
  else if 97 ≤ n ∧ n ≤ 122 then some (n - 97 + 26)
  else if 48 ≤ n ∧ n ≤ 57 then some (n - 48 + 52)
  else if c = '+' then some 62
  else if c = '/' then some 63
  else none

/-- Standard base64 encoding of a byte sequence (the behaviour of `btoa`
on a binary string of code units below 256), with '=' padding. -/
def b64Encode : List ℕ → List Char
  | [] => []
  | [a] => [b64CharOf (a / 4), b64CharOf (a % 4 * 16), '=', '=']
  | [a, b] => [b64CharOf (a / 4), b64CharOf (a % 4 * 16 + b / 16),
               b64CharOf (b % 16 * 4), '=']
  | a :: b :: d :: rest =>
      b64CharOf (a / 4) :: b64CharOf (a % 4 * 16 + b / 16) ::
      b64CharOf (b % 16 * 4 + d / 64) :: b64CharOf (d % 64) ::
      b64Encode rest

/-- Standard base64 decoding (the behaviour of `atob`): four characters
at a time, '=' padding permitted only at the very end; none on any
malformed input. -/
def b64Decode : List Char → Option (List ℕ)
  | [] => some []
  | c1 :: c2 :: c3 :: c4 :: rest =>
      match b64IndexOf c1, b64IndexOf c2 with
      | some s1, some s2 =>
        if c3 = '=' then
          if c4 = '=' ∧ rest = [] then some [s1 * 4 + s2 / 16] else none
        else
          match b64IndexOf c3 with
          | some s3 =>
            if c4 = '=' then
              if rest = [] then some [s1 * 4 + s2 / 16, s2 % 16 * 16 + s3 / 4]
              else none
            else
              match b64IndexOf c4 with
              | some s4 =>
                  (b64Decode rest).map
                    (fun bs => (s1 * 4 + s2 / 16) :: (s2 % 16 * 16 + s3 / 4) ::
                               (s3 % 4 * 64 + s4) :: bs)
              | none => none
          | none => none
      | _, _ => none
  | _ => none

/-! ## PCM codec

`createBlob` (VoiceSessionManager.createBlob): `int16[i] = data[i] * 32768`
stores ToInt16 of the scaled sample into an Int16Array; the blob carries
the base64 encoding of the array's bytes and a fixed MIME descriptor.

`decodeAudioData` (VoiceSessionManager.decodeAudioData): views the byte
buffer as an Int16Array (the constructor throws a RangeError when the
byte length is odd), computes `frameCount = dataInt16.length / numChannels`
(a fractional quotient that `createBuffer`'s unsigned-long argument
conversion truncates; `createBuffer` throws NotSupportedError when any
argument is outside its nominal range: a zero or above-host-maximum
channel count, a zero frame count, or an out-of-range sample rate),
then fills each channel with
`dataInt16[i * numChannels + channel] / 32768.0`.  Writes past the end
of the created buffer (which occur when the division had a remainder)
are silently ignored by the typed array, so each channel ends up with
exactly the truncated number of frames.

The exact nominal ranges are host-dependent.  The model uses the bounds
the Web Audio specification obliges every host to accept: channel
counts 1..32 (current browsers cap at exactly 32) and sample rates
8000..96000 Hz; a host may accept more, so the model is exact only
within these bounds.  Every theorem below evaluates decodeAudioData
inside them (numChannels 1 or 2, sampleRate 24000 -- the only rate the
client passes), where every conforming host behaves identically. -/

/-- ToInt16 of a sample scaled by 32768, as Int16Array element assignment
performs in createBlob. -/
def sampleToInt16 (s : ℚ) : ℤ := toInt16 (ratTrunc (s * 32768))

/-- The Int16Array built by createBlob from a Float32Array of samples. -/
def createBlobInt16 (data : List ℚ) : List ℤ := data.map sampleToInt16

/-- The bytes of createBlob's Int16Array, as passed to encode. -/
def createBlobBytes (data : List ℚ) : List ℕ :=
  (createBlobInt16 data).flatMap int16ToBytes

/-- The outbound media blob of createBlob. -/
structure BlobM where
  data : List Char
  mimeType : String
deriving DecidableEq

/-- VoiceSessionManager.createBlob. -/
def createBlob (data : List ℚ) : BlobM :=
  { data := b64Encode (createBlobBytes data), mimeType := "audio/pcm;rate=16000" }

/-- The failure modes decodeAudioData can hit in the host environment. -/
inductive DecodeErr
  /-- RangeError from the Int16Array constructor on an odd byte length. -/
  | rangeError
  /-- NotSupportedError from createBuffer on a zero channel count or a
  zero (truncated) frame count. -/
  | notSupported
deriving DecidableEq

/-- VoiceSessionManager.decodeAudioData: the per-channel sample lists of
the AudioBuffer it returns.  The sampleRate argument only sets buffer
metadata but, like the channel count, is range-checked by createBuffer
(bounds per the section comment above). -/
def decodeAudioData (data : List ℕ) (sampleRate : ℚ) (numChannels : ℕ) :
    Except DecodeErr (List (List ℚ)) :=
  if data.length % 2 ≠ 0 then .error .rangeError
  else
    let dataInt16 := bytesToInt16 data
    let frameCount := dataInt16.length / numChannels
    if numChannels = 0 ∨ 32 < numChannels ∨ frameCount = 0
        ∨ sampleRate < 8000 ∨ 96000 < sampleRate then .error .notSupported
    else .ok ((List.range numChannels).map (fun channel =>
      (List.range frameCount).map
        (fun i => ((dataInt16.getD (i * numChannels + channel) 0 : ℤ) : ℚ) / 32768)))

/-! ## Playback scheduler (audio side of VoiceSessionManager)

State: `nextStartTime` and the live set of scheduled sources; each live
source is recorded with its scheduled start time and duration. -/

/-- Mutable playback state of the manager. -/
structure SchedState where
  nextStartTime : ℚ
  sources : List (ℚ × ℚ)
deriving DecidableEq

/-- VoiceSessionManager.stopAllAudio: stop and clear every live source,
reset nextStartTime to 0. -/
def stopAllAudio (_st : SchedState) : SchedState :=
  { nextStartTime := 0, sources := [] }

/-- One audio-chunk scheduling step, as the modelTurn branch of
handleServerMessage performs it: take the later of nextStartTime and the
output clock, start the new source there, advance nextStartTime by the
buffer duration.  Returns the new state and the assigned start time. -/
def enqueueChunk (st : SchedState) (now dur : ℚ) : SchedState × ℚ :=
  let start := max st.nextStartTime now
  ({ nextStartTime := start + dur, sources := st.sources ++ [(start, dur)] }, start)

/-- One part of a modelTurn, carrying optional inline base64 audio data. -/
structure MsgPart where
  inlineData : Option (List Char)
deriving DecidableEq

/-- The serverContent fields the client reads from a LiveServerMessage. -/
structure LiveServerMessage where
  modelTurn : Option (List MsgPart)
  inputTranscription : Option String
  outputTranscription : Option String
  turnComplete : Bool
  interrupted : Bool
deriving DecidableEq

/-- The base64 payload handleServerMessage extracts:
`serverContent?.modelTurn?.parts[0]?.inlineData?.data`, with the empty
string treated as absent by the truthiness guard `if (base64Audio && ...)`. -/
def extractAudio (m : LiveServerMessage) : Option (List Char) :=
  match (m.modelTurn.bind List.head?).bind MsgPart.inlineData with
  | some p => if p = [] then none else some p
  | none => none

/-- decode followed by decodeAudioData at 24 kHz mono, as the modelTurn
branch runs them; none when either throws. -/
def decodeChunk (payload : List Char) : Option (List ℚ) :=
  (b64Decode payload).bind fun bytes =>
    ((decodeAudioData bytes 24000 1).toOption).map fun chans => chans.getD 0 []

/-- VoiceSessionManager.handleServerMessage: the playback-state transition
for one inbound message, given the output clock reading `now`.  The Bool
records whether a decode exception escaped the handler (in which case the
interrupted check and the onmessage forwarding are skipped).  Note that
`nextStartTime = max(nextStartTime, currentTime)` is assigned before
decoding, so it persists even when decoding throws. -/
def handleServerMessage (st : SchedState) (now : ℚ) (m : LiveServerMessage) :
    SchedState × Bool :=
  match extractAudio m with
  | some payload =>
    let st1 : SchedState := { st with nextStartTime := max st.nextStartTime now }
    match decodeChunk payload with
    | none => (st1, true)
    | some samples =>
      let dur : ℚ := samples.length / 24000
      let start := st1.nextStartTime
      let st2 : SchedState :=
        { nextStartTime := start + dur, sources := st1.sources ++ [(start, dur)] }
      if m.interrupted then (stopAllAudio st2, false) else (st2, false)
  | none => if m.interrupted then (stopAllAudio st, false) else (st, false)

/-- A whole sequence of audio-chunk arrivals: each element is the output
clock reading when the chunk is processed and the decoded buffer's
duration.  Returns the final state and the assigned start times. -/
def runEnqueues (st : SchedState) : List (ℚ × ℚ) → SchedState × List ℚ
  | [] => (st, [])
  | (now, dur) :: rest =>
      let p := enqueueChunk st now dur
      let q := runEnqueues p.1 rest
      (q.1, p.2 :: q.2)

/-! ## App-level transcription callback (App.tsx, startVoice onMessage)

The callback reads, in order: modelTurn presence (speaking flags),
outputTranscription (append to the model buffer), inputTranscription
(append to the user buffer, flip speaking flags), turnComplete (flush the
non-empty buffers into TranscriptionEntry values, reset both buffers,
clear both flags).  JS string truthiness makes the empty string falsy. -/

/-- Speaker tag of a TranscriptionEntry ('user' | 'model'). -/
inductive SpeakerType
  | user
  | model
deriving DecidableEq

/-- One entry of the append-only transcript (types.ts TranscriptionEntry). -/
structure TranscriptionEntry where
  text : String
  type : SpeakerType
deriving DecidableEq

/-- transcriptionBuffer ref: the per-turn accumulating text buffers. -/
structure TranscriptionBuffer where
  user : String
  model : String
deriving DecidableEq

/-- The React state the voice onMessage callback touches. -/
structure AppCallbackState where
  transcriptions : List TranscriptionEntry
  buffer : TranscriptionBuffer
  isModelSpeaking : Bool
  isUserSpeaking : Bool
deriving DecidableEq

/-- The onMessage callback App.tsx passes to the VoiceSessionManager. -/
def onMessage (st : AppCallbackState) (m : LiveServerMessage) : AppCallbackState :=
  let st1 := if m.modelTurn.isSome then
      { st with isModelSpeaking := true, isUserSpeaking := false }
    else st
  let st2 := match m.outputTranscription with
    | some t => { st1 with buffer := { st1.buffer with model := st1.buffer.model ++ t } }
    | none => st1
  let st3 := match m.inputTranscription with
    | some t =>
        let b := { st2.buffer with user := st2.buffer.user ++ t }
        { st2 with buffer := b, isUserSpeaking := true, isModelSpeaking := false }
    | none => st2
  if m.turnComplete then
    let u := st3.buffer.user
    let md := st3.buffer.model
    let trans := if u ≠ "" ∨ md ≠ "" then
        st3.transcriptions
          ++ (if u ≠ "" then [{ text := u, type := SpeakerType.user }] else [])
          ++ (if md ≠ "" then [{ text := md, type := SpeakerType.model }] else [])
      else st3.transcriptions
    { transcriptions := trans, buffer := { user := "", model := "" },
      isModelSpeaking := false, isUserSpeaking := false }
  else st3

/-! ## Manager resource lifecycle (connect / disconnect)

Resources the manager owns: the microphone MediaStream (tracked here by
whether its tracks are live), the two AudioContexts, and the live-session
transport handle.  `AudioContext.close()` on an already-closed context
fails, which the source guards against by checking `state !== 'closed'`;
`MediaStreamTrack.stop()` is idempotent and never fails. -/

/-- Lifecycle state of an AudioContext. -/
inductive CtxState
  | running
  | closed
deriving DecidableEq

/-- Resource state of one VoiceSessionManager instance. -/
structure ManagerState where
  sched : SchedState
  streamTracksLive : Option Bool
  inputContext : Option CtxState
  audioContext : Option CtxState
  sessionOpen : Bool
deriving DecidableEq

/-- AudioContext.close(): fails on an already-closed context. -/
def ctxClose : CtxState → Except String CtxState
  | .running => .ok .closed
  | .closed => .error "InvalidStateError"

/-- The guarded close the source performs:
`if (ctx && ctx.state !== 'closed') ctx.close()`. -/
def closeCtxChecked : Option CtxState → Except String (Option CtxState)
  | none => .ok none
  | some s =>
      if s ≠ CtxState.closed then (ctxClose s).map some else .ok (some s)

/-- Field state of a freshly constructed VoiceSessionManager. -/
def initialManagerState : ManagerState :=
  { sched := { nextStartTime := 0, sources := [] }, streamTracksLive := none,
    inputContext := none, audioContext := none, sessionOpen := false }

/-- VoiceSessionManager.disconnect: stopAllAudio, stop every stream track,
close each not-yet-closed context.  The live session handle is not
touched. -/
def disconnect (st : ManagerState) : Except String ManagerState := do
  let sched := stopAllAudio st.sched
  let stream := st.streamTracksLive.map (fun _ => false)
  let ic ← closeCtxChecked st.inputContext
  let oc ← closeCtxChecked st.audioContext
  pure { sched := sched, streamTracksLive := stream, inputContext := ic,
         audioContext := oc, sessionOpen := st.sessionOpen }

/-- Outcome of the two fallible acquisitions connect performs. -/
structure ConnectEnv where
  micOk : Bool
  transportOk : Bool
deriving DecidableEq

/-- VoiceSessionManager.connect on a fresh instance: getUserMedia, create
both contexts, open the live session.  The catch block reports the error
and rethrows; it releases nothing, so resources acquired before the
failing step stay held in the returned field state. -/
def connect (env : ConnectEnv) : Except String Unit × ManagerState :=
  if ¬env.micOk then (.error "PermissionError", initialManagerState)
  else
    let st1 : ManagerState := { initialManagerState with
      streamTracksLive := some true, inputContext := some CtxState.running,
      audioContext := some CtxState.running }
    if ¬env.transportOk then (.error "TransportError", st1)
    else (.ok (), { st1 with sessionOpen := true })

/-! ## Theorems -/

theorem toInt16_range (n : ℤ) : -32768 ≤ toInt16 n ∧ toInt16 n < 32768 := by
  unfold toInt16
  have h := Int.emod_nonneg (n + 32768) (by norm_num : (65536:ℤ) ≠ 0)
  have h2 := Int.emod_lt_of_pos (n + 32768) (by norm_num : (0:ℤ) < 65536)
  omega

theorem toInt16_eq_self {n : ℤ} (h1 : -32768 ≤ n) (h2 : n < 32768) :
    toInt16 n = n := by
  unfold toInt16
  rw [Int.emod_eq_of_lt (by omega) (by omega)]
  omega

theorem bytesToInt16_int16ToBytes {n : ℤ} (h1 : -32768 ≤ n) (h2 : n < 32768)
    (rest : List ℕ) :
    bytesToInt16 (int16ToBytes n ++ rest) = n :: bytesToInt16 rest := by
  have hsplit : int16ToBytes n ++ rest
      = (n % 65536).toNat % 256 :: (n % 65536).toNat / 256 :: rest := rfl
  rw [hsplit, bytesToInt16]
  congr 1
  have hnn := Int.emod_nonneg n (by norm_num : (65536:ℤ) ≠ 0)
  have hlt := Int.emod_lt_of_pos n (by norm_num : (0:ℤ) < 65536)
  have hval : n % 65536 = if 0 ≤ n then n else n + 65536 := by
    split
    · exact Int.emod_eq_of_lt (by omega) (by omega)
    · rw [show n % 65536 = (n + 65536) % 65536 by omega]
      exact Int.emod_eq_of_lt (by omega) (by omega)
  have hu : ((n % 65536).toNat % 256) + 256 * ((n % 65536).toNat / 256)
      = (n % 65536).toNat := by omega
  rw [hu]
  unfold fromUint16
  split <;> rename_i hcase
  · have : ((n % 65536).toNat : ℤ) = n := by split at hval <;> omega
    omega
  · have : ((n % 65536).toNat : ℤ) = n + 65536 := by split at hval <;> omega
    omega

theorem bytesToInt16_length (l : List ℕ) :
    (bytesToInt16 l).length = l.length / 2 := by
  induction l using bytesToInt16.induct with
  | case1 lo hi rest ih => simp [bytesToInt16, ih]; omega
  | case2 l h => cases l with
    | nil => simp [bytesToInt16]
    | cons a t =>
        cases t with
        | nil => simp [bytesToInt16]
        | cons b u => exact absurd rfl (h a b u)

theorem b64IndexOf_b64CharOf : ∀ n < 64, b64IndexOf (b64CharOf n) = some n := by
  decide

theorem b64CharOf_ne_pad : ∀ n < 64, b64CharOf n ≠ '=' := by decide

/-- Round trip of the transcoder on byte sequences. -/
theorem b64Decode_b64Encode (B : List ℕ) (h : ∀ b ∈ B, b < 256) :
    b64Decode (b64Encode B) = some B := by
  induction B using b64Encode.induct with
  | case1 => simp [b64Encode, b64Decode]
  | case2 a =>
      have ha : a < 256 := h a (by simp)
      simp only [b64Encode, b64Decode]
      rw [b64IndexOf_b64CharOf (a / 4) (by omega),
          b64IndexOf_b64CharOf (a % 4 * 16) (by omega)]
      simp only [reduceIte, and_self]
      congr 2
      omega
  | case3 a b =>
      have ha : a < 256 := h a (by simp)
      have hb : b < 256 := h b (by simp)
      have i1 := b64IndexOf_b64CharOf (a / 4) (by omega)
      have i2 := b64IndexOf_b64CharOf (a % 4 * 16 + b / 16) (by omega)
      have i3 := b64IndexOf_b64CharOf (b % 16 * 4) (by omega)
      have n3 := b64CharOf_ne_pad (b % 16 * 4) (by omega)
      have e1 : a / 4 * 4 + (a % 4 * 16 + b / 16) / 16 = a := by omega
      have e2 : (a % 4 * 16 + b / 16) % 16 * 16 + b % 16 * 4 / 4 = b := by omega
      simp only [b64Encode, b64Decode, i1, i2, i3, n3, reduceIte, e1, e2]
  | case4 a b d rest ih =>
      have ha : a < 256 := h a (by simp)
      have hb : b < 256 := h b (by simp)
      have hd : d < 256 := h d (by simp)
      have hrest : ∀ x ∈ rest, x < 256 := fun x hx => h x (by simp [hx])
      have i1 := b64IndexOf_b64CharOf (a / 4) (by omega)
      have i2 := b64IndexOf_b64CharOf (a % 4 * 16 + b / 16) (by omega)
      have i3 := b64IndexOf_b64CharOf (b % 16 * 4 + d / 64) (by omega)
      have i4 := b64IndexOf_b64CharOf (d % 64) (by omega)
      have n3 := b64CharOf_ne_pad (b % 16 * 4 + d / 64) (by omega)
      have n4 := b64CharOf_ne_pad (d % 64) (by omega)
      have e1 : a / 4 * 4 + (a % 4 * 16 + b / 16) / 16 = a := by omega
      have e2 : (a % 4 * 16 + b / 16) % 16 * 16 + (b % 16 * 4 + d / 64) / 4 = b := by
        omega
      have e3 : (b % 16 * 4 + d / 64) % 4 * 64 + d % 64 = d := by omega
      simp only [b64Encode, b64Decode, i1, i2, i3, i4, n3, n4, reduceIte,
        ih hrest, Option.map_some', e1, e2, e3]

theorem sampleToInt16_bounds {s : ℚ} (h1 : -1 ≤ s) (h2 : s < 1) :
    sampleToInt16 s = ratTrunc (s * 32768)
      ∧ -32768 ≤ ratTrunc (s * 32768) ∧ ratTrunc (s * 32768) < 32768 := by
  have hq1 : (-32768 : ℚ) ≤ s * 32768 := by linarith
  have hq2 : s * 32768 < 32768 := by linarith
  have hb : -32768 ≤ ratTrunc (s * 32768) ∧ ratTrunc (s * 32768) < 32768 := by
    unfold ratTrunc
    split <;> rename_i hs
    · constructor
      · have h0 : (0:ℤ) ≤ ⌊s * 32768⌋ := by
          rw [Int.le_floor]; exact_mod_cast hs
        omega
      · have : (⌊s * 32768⌋ : ℚ) ≤ s * 32768 := Int.floor_le _
        have : (⌊s * 32768⌋ : ℚ) < 32768 := by linarith
        exact_mod_cast this
    · constructor
      · have : (-32768 : ℚ) ≤ (⌈s * 32768⌉ : ℚ) := le_trans hq1 (Int.le_ceil _)
        exact_mod_cast this
      · have h0 : ⌈s * 32768⌉ ≤ 0 := by
          rw [Int.ceil_le]; push_cast; linarith [lt_of_not_ge hs]
        omega
  exact ⟨toInt16_eq_self hb.1 hb.2, hb⟩

theorem ratTrunc_err (q : ℚ) : |q - (ratTrunc q : ℚ)| ≤ 1 := by
  unfold ratTrunc
  rw [abs_le]
  split
  · have l1 := Int.floor_le q
    have l2 := Int.lt_floor_add_one q
    constructor <;> linarith
  · have l1 := Int.le_ceil q
    have l2 := Int.ceil_lt_add_one q
    constructor <;> linarith

/-- Per-sample quantisation error of the PCM codec within [-1, 1). -/
theorem sample_roundtrip_err {s : ℚ} (h1 : -1 ≤ s) (h2 : s < 1) :
    |s - (sampleToInt16 s : ℚ) / 32768| ≤ 1 / 32768 := by
  obtain ⟨heq, _, _⟩ := sampleToInt16_bounds h1 h2
  rw [heq]
  have h := ratTrunc_err (s * 32768)
  have hx : s - (ratTrunc (s * 32768) : ℚ) / 32768
      = (s * 32768 - (ratTrunc (s * 32768) : ℚ)) / 32768 := by ring
  rw [hx, abs_div, abs_of_pos (by norm_num : (0:ℚ) < 32768)]
  have : |s * 32768 - (ratTrunc (s * 32768) : ℚ)| ≤ 1 := h
  linarith

theorem bytesToInt16_flatMap (ns : List ℤ)
    (h : ∀ n ∈ ns, -32768 ≤ n ∧ n < 32768) :
    bytesToInt16 (ns.flatMap int16ToBytes) = ns := by
  induction ns with
  | nil => rfl
  | cons n rest ih =>
      have hn := h n (by simp)
      rw [List.flatMap_cons, bytesToInt16_int16ToBytes hn.1 hn.2,
        ih (fun x hx => h x (by simp [hx]))]

theorem range_map_getD {α β : Type} (l : List α) (f : α → β) (d : α) :
    (List.range l.length).map (fun i => f (l.getD i d)) = l.map f := by
  induction l with
  | nil => rfl
  | cons a t ih =>
      have hstep : (List.range (a :: t).length).map (fun i => f ((a :: t).getD i d))
          = f a :: (List.range t.length).map (fun i => f (t.getD i d)) := by
        rw [List.length_cons, List.range_succ_eq_map, List.map_cons, List.map_map]
        refine congrArg₂ List.cons rfl (List.map_congr_left ?_)
        intro i _
        simp [Function.comp, List.getD_cons_succ]
      rw [hstep, ih, List.map_cons]

theorem createBlobBytes_length (S : List ℚ) :
    (createBlobBytes S).length = 2 * S.length := by
  unfold createBlobBytes createBlobInt16
  induction S with
  | nil => rfl
  | cons a t ih =>
      rw [List.map_cons, List.flatMap_cons, List.length_append, ih,
        List.length_cons]
      have h2 : (int16ToBytes (sampleToInt16 a)).length = 2 := rfl
      omega

/-- Single-channel decodeAudioData on an even-length, non-empty buffer:
one channel of int16 values scaled down by 32768. -/
theorem decodeAudioData_one (data : List ℕ) (h2 : data.length % 2 = 0)
    (hne : bytesToInt16 data ≠ []) :
    decodeAudioData data 24000 1
      = .ok [(bytesToInt16 data).map (fun n => ((n : ℤ) : ℚ) / 32768)] := by
  unfold decodeAudioData
  rw [if_neg (by omega)]
  have hpos : (bytesToInt16 data).length ≠ 0 :=
    fun h0 => hne (List.eq_nil_of_length_eq_zero h0)
  rw [if_neg (by
    simp only [Nat.div_one]
    push_neg
    exact ⟨by omega, by omega, hpos, by norm_num, by norm_num⟩)]
  have hr1 : List.range 1 = [0] := rfl
  rw [hr1, List.map_cons, List.map_nil]
  congr 2
  have hgen : ∀ (l : List ℤ),
      (List.range (l.length / 1)).map
        (fun i => ((l.getD (i * 1 + 0) 0 : ℤ) : ℚ) / 32768)
      = l.map (fun n => ((n : ℤ) : ℚ) / 32768) := by
    intro l
    simp only [Nat.div_one, Nat.mul_one, Nat.add_zero]
    exact range_map_getD l (fun n => ((n : ℤ) : ℚ) / 32768) 0
  exact hgen (bytesToInt16 data)

/-- Decoding the bytes createBlob packs recovers one channel holding the
quantised samples, whenever at least one sample is present. -/
theorem decodeAudioData_createBlobBytes (S : List ℚ) (hne : S ≠ []) :
    decodeAudioData (createBlobBytes S) 24000 1
      = .ok [S.map (fun s => ((sampleToInt16 s : ℤ) : ℚ) / 32768)] := by
  have hints : bytesToInt16 (createBlobBytes S) = createBlobInt16 S := by
    unfold createBlobBytes
    exact bytesToInt16_flatMap _ (fun n hn => by
      simp only [createBlobInt16, List.mem_map] at hn
      obtain ⟨s, _, rfl⟩ := hn
      exact toInt16_range _)
  have hnei : createBlobInt16 S ≠ [] := by
    simp [createBlobInt16, hne]
  rw [decodeAudioData_one _ (by rw [createBlobBytes_length]; omega)
    (by rw [hints]; exact hnei)]
  rw [hints]
  unfold createBlobInt16
  rw [List.map_map]
  rfl

/-- The audio branch of handleServerMessage schedules exactly one
enqueueChunk step. -/
theorem handleServerMessage_audio (st : SchedState) (now : ℚ)
    (m : LiveServerMessage) (payload : List Char) (samples : List ℚ)
    (hp : extractAudio m = some payload) (hdec : decodeChunk payload = some samples)
    (hint : m.interrupted = false) :
    handleServerMessage st now m
      = ((enqueueChunk st now (samples.length / 24000)).1, false) := by
  simp only [handleServerMessage, hp, hdec, hint, enqueueChunk, Bool.false_eq_true,
    if_false]

theorem runEnqueues_length (st : SchedState) (L : List (ℚ × ℚ)) :
    (runEnqueues st L).2.length = L.length := by
  induction L generalizing st with
  | nil => rfl
  | cons p rest ih =>
      obtain ⟨now, dur⟩ := p
      simp [runEnqueues, ih]

theorem runEnqueues_head (st : SchedState) (now dur : ℚ) (rest : List (ℚ × ℚ)) :
    (runEnqueues st ((now, dur) :: rest)).2.getD 0 0 = max st.nextStartTime now := by
  simp [runEnqueues, enqueueChunk]

theorem runEnqueues_succ (L : List (ℚ × ℚ)) (st : SchedState) (i : ℕ)
    (h : i + 1 < L.length) :
    (runEnqueues st L).2.getD (i + 1) 0
      = max (L.getD (i + 1) (0, 0)).1
          ((runEnqueues st L).2.getD i 0 + (L.getD i (0, 0)).2) := by
  induction L generalizing st i with
  | nil => simp at h
  | cons p rest ih =>
      obtain ⟨now, dur⟩ := p
      match i with
      | 0 =>
        have hrest : rest.length ≠ 0 := by
          simp only [List.length_cons] at h; omega
        obtain ⟨q, rest', rfl⟩ : ∃ q rest', rest = q :: rest' := by
          cases rest with
          | nil => exact absurd rfl hrest
          | cons q rest' => exact ⟨q, rest', rfl⟩
        obtain ⟨now2, dur2⟩ := q
        simp only [runEnqueues, List.getD_cons_succ, List.getD_cons_zero,
          enqueueChunk]
        exact max_comm _ _
      | Nat.succ k =>
        simp only [List.length_cons] at h
        have h' : k + 1 < rest.length := by omega
        simp only [runEnqueues, List.getD_cons_succ]
        exact ih _ k h'

theorem runEnqueues_step_le (L : List (ℚ × ℚ)) (st : SchedState) (i : ℕ)
    (h : i + 1 < L.length) :
    (runEnqueues st L).2.getD i 0 + (L.getD i (0, 0)).2
      ≤ (runEnqueues st L).2.getD (i + 1) 0 := by
  rw [runEnqueues_succ L st i h]
  exact le_max_right _ _

theorem runEnqueues_no_overlap (L : List (ℚ × ℚ)) (st : SchedState)
    (hd : ∀ p ∈ L, 0 ≤ p.2) (i j : ℕ) (hij : i < j) (hj : j < L.length) :
    (runEnqueues st L).2.getD i 0 + (L.getD i (0, 0)).2
      ≤ (runEnqueues st L).2.getD j 0 := by
  induction j with
  | zero => omega
  | succ k ihk =>
      rcases Nat.lt_succ_iff_lt_or_eq.mp hij with hlt | heq
      · have hk : k < L.length := by omega
        have hdk : 0 ≤ (L.getD k (0, 0)).2 := by
          have hm : L.getD k (0, 0) ∈ L := by
            rw [List.getD_eq_getElem L (0, 0) hk]
            exact List.getElem_mem hk
          exact hd _ hm
        calc (runEnqueues st L).2.getD i 0 + (L.getD i (0, 0)).2
            ≤ (runEnqueues st L).2.getD k 0 := ihk hlt hk
          _ ≤ (runEnqueues st L).2.getD k 0 + (L.getD k (0, 0)).2 := by linarith
          _ ≤ (runEnqueues st L).2.getD (k + 1) 0 := runEnqueues_step_le L st k hj
      · subst heq
        exact runEnqueues_step_le L st i hj

theorem runEnqueues_mono (L : List (ℚ × ℚ)) (st : SchedState)
    (hd : ∀ p ∈ L, 0 ≤ p.2) :
    st.nextStartTime ≤ (runEnqueues st L).1.nextStartTime := by
  induction L generalizing st with
  | nil => simp [runEnqueues]
  | cons p rest ih =>
      obtain ⟨now, dur⟩ := p
      have hdur : (0:ℚ) ≤ dur := hd (now, dur) (by simp)
      have hrest : ∀ q ∈ rest, (0:ℚ) ≤ q.2 := fun q hq => hd q (by simp [hq])
      simp only [runEnqueues]
      refine le_trans ?_ (ih _ hrest)
      simp only [enqueueChunk]
      have := le_max_left st.nextStartTime now
      linarith

/-- Without an interrupt, handleServerMessage never decreases
nextStartTime. -/
theorem handleServerMessage_mono (st : SchedState) (now : ℚ)
    (m : LiveServerMessage) (hint : m.interrupted = false) :
    st.nextStartTime ≤ (handleServerMessage st now m).1.nextStartTime := by
  unfold handleServerMessage
  cases hext : extractAudio m with
  | none => simp [hint]
  | some payload =>
      cases hdec : decodeChunk payload with
      | none => simp only [hdec]; exact le_max_left _ _
      | some samples =>
          simp only [hdec, hint, Bool.false_eq_true, if_false]
          have h1 := le_max_left st.nextStartTime now
          have h2 : (0:ℚ) ≤ (samples.length : ℚ) / 24000 := by positivity
          show st.nextStartTime
            ≤ max st.nextStartTime now + (samples.length : ℚ) / 24000
          linarith

/-- C8: for every byte sequence B (code units below 256, as a Uint8Array
holds), decoding the base64 transport encoding of B yields B exactly:
fromTransport(toTransport(B)) == B. -/
theorem claim_C8_transport_roundtrip (B : List ℕ) (h : ∀ b ∈ B, b < 256) :
    b64Decode (b64Encode B) = some B :=
  b64Decode_b64Encode B h

/-- Witness for C8 at the concrete byte sequence [72, 105, 33]. -/
theorem claim_C8_witness :
    b64Decode (b64Encode [72, 105, 33]) = some [72, 105, 33] :=
  claim_C8_transport_roundtrip [72, 105, 33] (by decide)

/-- Counterexample to C3 as stated: the sample 1.0 lies in [-1, 1] but
1.0 * 32768 = 32768 wraps to -32768 under ToInt16, so the reconstructed
sample is -1 and the error is 2, far above 1/32768; moreover the empty
sample array decodes to a NotSupportedError (createBuffer rejects a
zero frame count), not to an empty reconstruction. -/
theorem claim_C3_counterexample :
    decodeAudioData (createBlobBytes [(1 : ℚ)]) 24000 1 = .ok [[-1]]
    ∧ ¬ (|(1 : ℚ) - (-1 : ℚ)| ≤ 1 / 32768)
    ∧ decodeAudioData (createBlobBytes ([] : List ℚ)) 24000 1
        = .error .notSupported := by
  have hs : sampleToInt16 (1 : ℚ) = -32768 := by
    unfold sampleToInt16 ratTrunc
    rw [if_pos (by norm_num)]
    rw [show ⌊(1 : ℚ) * 32768⌋ = 32768 by norm_num]
    decide
  refine ⟨?_, by rw [show (1 : ℚ) - (-1 : ℚ) = 2 by norm_num]; norm_num, rfl⟩
  rw [decodeAudioData_createBlobBytes [(1 : ℚ)] (by simp)]
  rw [List.map_cons, List.map_nil, hs]
  norm_num

/-- C3 (amended): for every non-empty sample array S with every element
in [-1, 1), decoding the PCM encoding of S reconstructs S with
per-sample error at most 1/32768. -/
theorem claim_C3_pcm_roundtrip (S : List ℚ) (hne : S ≠ [])
    (hr : ∀ s ∈ S, -1 ≤ s ∧ s < 1) :
    ∃ S' : List ℚ, decodeAudioData (createBlobBytes S) 24000 1 = .ok [S']
      ∧ S'.length = S.length
      ∧ ∀ i, i < S.length → |S.getD i 0 - S'.getD i 0| ≤ 1 / 32768 := by
  refine ⟨S.map (fun s => ((sampleToInt16 s : ℤ) : ℚ) / 32768),
    decodeAudioData_createBlobBytes S hne, by simp, ?_⟩
  intro i hi
  have hl : i < (S.map (fun s => ((sampleToInt16 s : ℤ) : ℚ) / 32768)).length := by
    simpa using hi
  rw [List.getD_eq_getElem S 0 hi,
    List.getD_eq_getElem _ 0 hl, List.getElem_map]
  have hm : S[i] ∈ S := List.getElem_mem hi
  exact sample_roundtrip_err (hr _ hm).1 (hr _ hm).2

/-- Witness for C3 (amended) at the concrete sample array [1/2]. -/
theorem claim_C3_witness :
    ∃ S' : List ℚ,
      decodeAudioData (createBlobBytes [(1 : ℚ) / 2]) 24000 1 = .ok [S']
      ∧ S'.length = ([(1 : ℚ) / 2]).length
      ∧ ∀ i, i < ([(1 : ℚ) / 2]).length →
          |([(1 : ℚ) / 2]).getD i 0 - S'.getD i 0| ≤ 1 / 32768 :=
  claim_C3_pcm_roundtrip [(1 : ℚ) / 2] (by simp)
    (fun s hs => by rw [List.mem_singleton] at hs; subst hs; norm_num)

/-- Counterexample to C9 as stated: 6 bytes with channelCount 2 (at the
client's 24 kHz rate, within every host's supported ranges) is not a
multiple of 2 x 2, yet decodeAudioData accepts it, silently truncating
the surplus half frame instead of rejecting. -/
theorem claim_C9_counterexample :
    ¬ (6 % (2 * 2) = 0)
    ∧ (decodeAudioData [0, 0, 0, 0, 0, 0] 24000 2).toOption ≠ none := by
  refine ⟨by decide, ?_⟩
  have hb : (bytesToInt16 [0, 0, 0, 0, 0, 0]).length = 3 := by decide
  unfold decodeAudioData
  rw [if_neg (by decide)]
  rw [if_neg (by
    rw [hb]
    push_neg
    exact ⟨by omega, by omega, by omega, by norm_num, by norm_num⟩)]
  simp [Except.toOption]

/-- C9 (amended): in the single-channel configuration the client uses
(numChannels 1 at 24 kHz, inside every conforming host's supported
ranges), decodeAudioData fails exactly when the byte count is odd
(Int16Array RangeError) or no complete frame remains -- that is, on the
empty input (createBuffer NotSupportedError) -- and succeeds on every
other input (a pure function, hence deterministic and stateless).  For
higher channel counts the original claim's rejection rule fails: a byte
count that is not a multiple of 2 x channelCount but holds at least one
full frame is silently truncated, not rejected (the counterexample);
there the remaining failure modes are createBuffer's host-dependent
nominal-range checks, not a malformed-length check. -/
theorem claim_C9_decode_failure_modes (data : List ℕ) :
    (decodeAudioData data 24000 1).toOption = none
      ↔ data.length % 2 ≠ 0 ∨ data.length / 2 = 0 := by
  unfold decodeAudioData
  simp only [bytesToInt16_length, Nat.div_one]
  split <;> rename_i h1
  · simp [Except.toOption, h1]
  · split <;> rename_i h2
    · have hz : data.length / 2 = 0 := by
        rcases h2 with h | h | h | h | h
        · omega
        · omega
        · exact h
        · norm_num at h
        · norm_num at h
      simp [Except.toOption, h1, hz]
    · push_neg at h2
      simp [Except.toOption, h1, h2.2.2.1]

/-- C1: for every sequence of audio chunks with nonnegative durations
processed at arbitrary clock readings, the assigned start times satisfy
start(n+1) = max(now, start(n) + d(n)), hence start(n+1) >= start(n) + d(n);
no two scheduled buffers overlap; and nextStartTime never decreases,
whether over a run of enqueues or across any handleServerMessage without
an interrupt. -/
theorem claim_C1_scheduling (st0 : SchedState) (L : List (ℚ × ℚ))
    (hd : ∀ p ∈ L, 0 ≤ p.2) :
    (∀ i, i + 1 < L.length →
        (runEnqueues st0 L).2.getD (i + 1) 0
          = max (L.getD (i + 1) (0, 0)).1
              ((runEnqueues st0 L).2.getD i 0 + (L.getD i (0, 0)).2))
    ∧ (∀ i, i + 1 < L.length →
        (runEnqueues st0 L).2.getD i 0 + (L.getD i (0, 0)).2
          ≤ (runEnqueues st0 L).2.getD (i + 1) 0)
    ∧ (∀ i j, i < j → j < L.length →
        (runEnqueues st0 L).2.getD i 0 + (L.getD i (0, 0)).2
          ≤ (runEnqueues st0 L).2.getD j 0)
    ∧ st0.nextStartTime ≤ (runEnqueues st0 L).1.nextStartTime
    ∧ (∀ (st : SchedState) (now : ℚ) (m : LiveServerMessage),
        m.interrupted = false
          → st.nextStartTime ≤ (handleServerMessage st now m).1.nextStartTime) :=
  ⟨fun i h => runEnqueues_succ L st0 i h,
   fun i h => runEnqueues_step_le L st0 i h,
   fun i j hij hj => runEnqueues_no_overlap L st0 hd i j hij hj,
   runEnqueues_mono L st0 hd,
   fun st now m hint => handleServerMessage_mono st now m hint⟩

/-- Witness for C1: three half-second chunks arriving at clock readings
0, 0 and 2; the second start time is at least the first plus its
duration. -/
theorem claim_C1_witness :
    (runEnqueues { nextStartTime := 0, sources := [] }
        [((0 : ℚ), (1 : ℚ) / 2), (0, 1 / 2), (2, 1 / 2)]).2.getD 0 0
        + ([((0 : ℚ), (1 : ℚ) / 2), (0, 1 / 2), (2, 1 / 2)].getD 0 (0, 0)).2
      ≤ (runEnqueues { nextStartTime := 0, sources := [] }
        [((0 : ℚ), (1 : ℚ) / 2), (0, 1 / 2), (2, 1 / 2)]).2.getD 1 0 :=
  (claim_C1_scheduling { nextStartTime := 0, sources := [] }
      [((0 : ℚ), (1 : ℚ) / 2), (0, 1 / 2), (2, 1 / 2)]
      (fun p hp => by
        simp only [List.mem_cons, List.mem_singleton, List.not_mem_nil,
          or_false] at hp
        rcases hp with rfl | rfl | rfl <;> norm_num)).2.1 0 (by decide)

/-- C2: after an Interrupted inbound event whose handling completes
(no decode exception escaped), the live scheduled-buffer set is empty,
nextStartTime is 0, and every subsequent enqueue at a nonnegative clock
reading is scheduled at exactly that clock reading, not at a stale
future time. -/
theorem claim_C2_interrupt (st : SchedState) (now : ℚ) (m : LiveServerMessage)
    (hint : m.interrupted = true)
    (hok : (handleServerMessage st now m).2 = false) :
    (handleServerMessage st now m).1.sources = []
    ∧ (handleServerMessage st now m).1.nextStartTime = 0
    ∧ (∀ now' dur : ℚ, 0 ≤ now' →
        (enqueueChunk (handleServerMessage st now m).1 now' dur).2 = now') := by
  have hstate : (handleServerMessage st now m).1
      = { nextStartTime := 0, sources := [] } := by
    unfold handleServerMessage at hok ⊢
    cases hext : extractAudio m with
    | none => simp [hint, stopAllAudio]
    | some payload =>
        rw [hext] at hok
        dsimp only at hok ⊢
        cases hdec : decodeChunk payload with
        | none => rw [hdec] at hok; simp at hok
        | some samples =>
            rw [hdec] at hok
            dsimp only at hok ⊢
            simp [hint, stopAllAudio]
  rw [hstate]
  refine ⟨rfl, rfl, fun now' dur h => ?_⟩
  simp only [enqueueChunk]
  exact max_eq_right h

/-- Witness for C2: an interrupt-only message on a busy scheduler state. -/
theorem claim_C2_witness :
    (handleServerMessage { nextStartTime := 3, sources := [(0, 1)] } 5
        { modelTurn := none, inputTranscription := none,
          outputTranscription := none, turnComplete := false,
          interrupted := true }).1.sources = [] :=
  (claim_C2_interrupt { nextStartTime := 3, sources := [(0, 1)] } 5
      { modelTurn := none, inputTranscription := none,
        outputTranscription := none, turnComplete := false,
        interrupted := true } rfl rfl).1

/-- Counterexample to C7 as stated: a malformed chunk arriving at clock
time 5 on an idle scheduler (nextStartTime 0) leaves the scheduler state
changed -- nextStartTime was assigned max(nextStartTime, now) = 5 before
the decode threw -- so "scheduler state unchanged by the bad chunk" fails
(and the exception escapes the handler uncaught and unlogged rather than
being caught and logged). -/
theorem claim_C7_counterexample :
    (handleServerMessage { nextStartTime := 0, sources := [] } 5
        { modelTurn := some [{ inlineData := some ['!', '!'] }],
          inputTranscription := none, outputTranscription := none,
          turnComplete := false, interrupted := false }).2 = true
    ∧ (handleServerMessage { nextStartTime := 0, sources := [] } 5
        { modelTurn := some [{ inlineData := some ['!', '!'] }],
          inputTranscription := none, outputTranscription := none,
          turnComplete := false, interrupted := false }).1
        ≠ { nextStartTime := 0, sources := [] } := by
  have hext : extractAudio
      { modelTurn := some [{ inlineData := some ['!', '!'] }],
        inputTranscription := none, outputTranscription := none,
        turnComplete := false, interrupted := false }
      = some ['!', '!'] := rfl
  have hdec : decodeChunk ['!', '!'] = none := rfl
  have hrun : handleServerMessage { nextStartTime := 0, sources := [] } 5
      { modelTurn := some [{ inlineData := some ['!', '!'] }],
        inputTranscription := none, outputTranscription := none,
        turnComplete := false, interrupted := false }
      = ({ nextStartTime := max 0 5, sources := [] }, true) := by
    unfold handleServerMessage
    rw [hext]
    dsimp only
    rw [hdec]
  rw [hrun]
  refine ⟨rfl, ?_⟩
  intro hcontra
  have : (0 : ℚ) ⊔ 5 = 0 := congrArg SchedState.nextStartTime hcontra
  rw [max_eq_right (by norm_num : (0:ℚ) ≤ 5)] at this
  norm_num at this

/-- C7 (amended): on a malformed chunk the decode exception escapes the
handler (so that message is dropped without reaching the onmessage
callback), no source is scheduled, and the only state change is
nextStartTime := max(nextStartTime, now) -- which leaves the start time
of every later chunk processed at a clock reading >= now exactly as it
would have been without the bad chunk. -/
theorem claim_C7_bad_chunk (st : SchedState) (now : ℚ) (m : LiveServerMessage)
    (payload : List Char) (hp : extractAudio m = some payload)
    (hbad : decodeChunk payload = none) :
    (handleServerMessage st now m).2 = true
    ∧ (handleServerMessage st now m).1.sources = st.sources
    ∧ (handleServerMessage st now m).1.nextStartTime = max st.nextStartTime now
    ∧ (∀ now' dur : ℚ, now ≤ now' →
        (enqueueChunk (handleServerMessage st now m).1 now' dur).2
          = (enqueueChunk st now' dur).2) := by
  have hstep : handleServerMessage st now m
      = ({ st with nextStartTime := max st.nextStartTime now }, true) := by
    unfold handleServerMessage
    rw [hp]
    dsimp only
    rw [hbad]
  rw [hstep]
  refine ⟨rfl, rfl, rfl, fun now' dur h => ?_⟩
  simp only [enqueueChunk]
  rw [max_assoc, max_eq_right h]

/-- Witness for C7 (amended): the malformed two-character payload on a
scheduler whose clock then advances. -/
theorem claim_C7_witness :
    (handleServerMessage { nextStartTime := 7, sources := [] } 2
        { modelTurn := some [{ inlineData := some ['!', '!'] }],
          inputTranscription := none, outputTranscription := none,
          turnComplete := false, interrupted := false }).2 = true :=
  (claim_C7_bad_chunk { nextStartTime := 7, sources := [] } 2
      { modelTurn := some [{ inlineData := some ['!', '!'] }],
        inputTranscription := none, outputTranscription := none,
        turnComplete := false, interrupted := false }
      ['!', '!'] rfl rfl).1

/-- C10: when a model turn carries several parts, handleServerMessage
reads only parts[0]; every further part is silently ignored -- handling
a message with parts p :: rest equals handling the same message with
parts [p]. -/
theorem claim_C10_first_part_only (st : SchedState) (now : ℚ)
    (p : MsgPart) (rest : List MsgPart) (it ot : Option String) (tc intr : Bool) :
    handleServerMessage st now
        { modelTurn := some (p :: rest), inputTranscription := it,
          outputTranscription := ot, turnComplete := tc, interrupted := intr }
      = handleServerMessage st now
        { modelTurn := some [p], inputTranscription := it,
          outputTranscription := ot, turnComplete := tc, interrupted := intr } := rfl

/-- C4: a TurnComplete message flushes the transcription buffers (after
applying any deltas the same message carries) into at most two
TranscriptEntry values -- the user entry first, then the model entry,
each present exactly when its accumulated text is non-empty -- and
resets both buffers to empty. -/
theorem claim_C4_turn_flush (st : AppCallbackState) (m : LiveServerMessage)
    (htc : m.turnComplete = true) :
    (onMessage st m).transcriptions
        = st.transcriptions
          ++ (if st.buffer.user ++ m.inputTranscription.getD "" ≠ "" then
                [{ text := st.buffer.user ++ m.inputTranscription.getD "",
                   type := SpeakerType.user }] else [])
          ++ (if st.buffer.model ++ m.outputTranscription.getD "" ≠ "" then
                [{ text := st.buffer.model ++ m.outputTranscription.getD "",
                   type := SpeakerType.model }] else [])
    ∧ (onMessage st m).buffer = { user := "", model := "" }
    ∧ (onMessage st m).transcriptions.length ≤ st.transcriptions.length + 2 := by
  have key : ∀ (X : List TranscriptionEntry) (u md : String),
      (if u ≠ "" ∨ md ≠ "" then
          X ++ (if u ≠ "" then [{ text := u, type := SpeakerType.user }] else [])
            ++ (if md ≠ "" then [{ text := md, type := SpeakerType.model }] else [])
        else X)
      = X ++ (if u ≠ "" then [{ text := u, type := SpeakerType.user }] else [])
          ++ (if md ≠ "" then [{ text := md, type := SpeakerType.model }] else []) := by
    intro X u md
    by_cases hu : u = "" <;> by_cases hm : md = "" <;> simp [hu, hm]
  have h12 : (onMessage st m).transcriptions
        = st.transcriptions
          ++ (if st.buffer.user ++ m.inputTranscription.getD "" ≠ "" then
                [{ text := st.buffer.user ++ m.inputTranscription.getD "",
                   type := SpeakerType.user }] else [])
          ++ (if st.buffer.model ++ m.outputTranscription.getD "" ≠ "" then
                [{ text := st.buffer.model ++ m.outputTranscription.getD "",
                   type := SpeakerType.model }] else [])
      ∧ (onMessage st m).buffer = { user := "", model := "" } := by
    unfold onMessage
    cases hmt : m.modelTurn <;> cases hit : m.inputTranscription <;>
      cases hot : m.outputTranscription <;>
        simp [htc, key, Option.getD, String.append_empty]
  refine ⟨h12.1, h12.2, ?_⟩
  rw [h12.1]
  simp only [List.length_append]
  split_ifs <;> simp

/-- Witness for C4: buffers "hello world" (user) and "hi" (model), then a
pure TurnComplete message. -/
theorem claim_C4_witness :
    (onMessage
        { transcriptions := [],
          buffer := { user := "hello world", model := "hi" },
          isModelSpeaking := true, isUserSpeaking := false }
        { modelTurn := none, inputTranscription := none,
          outputTranscription := none, turnComplete := true,
          interrupted := false }).buffer = { user := "", model := "" } :=
  (claim_C4_turn_flush
      { transcriptions := [],
        buffer := { user := "hello world", model := "hi" },
        isModelSpeaking := true, isUserSpeaking := false }
      { modelTurn := none, inputTranscription := none,
        outputTranscription := none, turnComplete := true,
        interrupted := false } rfl).2.1

/-- Counterexample to C5 as stated: disconnect on a fully connected
manager leaves the transport session open -- the source never calls
session.close() -- so "transport closed" fails. -/
theorem claim_C5_counterexample :
    (disconnect
        { sched := { nextStartTime := 5, sources := [(0, 1)] },
          streamTracksLive := some true,
          inputContext := some CtxState.running,
          audioContext := some CtxState.running,
          sessionOpen := true }).toOption.map ManagerState.sessionOpen
      = some true := rfl

/-- C5 (amended): disconnect never fails, is idempotent from any state
(including a never-connected manager), and afterwards playback is
flushed, every stream track is stopped, and both audio contexts are
closed or absent; the live transport session, however, is left exactly
as it was -- disconnect never closes it. -/
theorem claim_C5_disconnect_idempotent (st : ManagerState) :
    ∃ st' : ManagerState, disconnect st = .ok st'
      ∧ disconnect st' = .ok st'
      ∧ st'.sched.sources = []
      ∧ st'.sched.nextStartTime = 0
      ∧ st'.streamTracksLive ≠ some true
      ∧ st'.inputContext ≠ some CtxState.running
      ∧ st'.audioContext ≠ some CtxState.running
      ∧ st'.sessionOpen = st.sessionOpen := by
  obtain ⟨sched, tr, ic, oc, so⟩ := st
  have hclose : ∀ o : Option CtxState,
      closeCtxChecked o = .ok (o.map (fun _ => CtxState.closed)) := by
    intro o
    rcases o with _ | c
    · rfl
    · cases c <;> rfl
  have hdone : ∀ o : Option CtxState,
      (o.map (fun _ => CtxState.closed)).map (fun _ => CtxState.closed)
        = o.map (fun _ => CtxState.closed) := by
    intro o; rcases o with _ | c <;> rfl
  have htr : (tr.map (fun _ => false)).map (fun _ => false)
      = tr.map (fun _ => false) := by
    rcases tr with _ | b <;> rfl
  refine ⟨{ sched := { nextStartTime := 0, sources := [] },
            streamTracksLive := tr.map (fun _ => false),
            inputContext := ic.map (fun _ => CtxState.closed),
            audioContext := oc.map (fun _ => CtxState.closed),
            sessionOpen := so }, ?_, ?_, rfl, rfl, ?_, ?_, ?_, rfl⟩
  · unfold disconnect
    rw [hclose ic, hclose oc]
    rfl
  · unfold disconnect
    rw [hclose (ic.map (fun _ => CtxState.closed)),
      hclose (oc.map (fun _ => CtxState.closed))]
    dsimp only
    rw [hdone ic, hdone oc, htr]
    rfl
  · rcases tr with _ | b <;> simp
  · rcases ic with _ | c <;> simp
  · rcases oc with _ | c <;> simp

/-- C6 (resource leak in connect): when the microphone is granted but the
transport open then fails, connect rethrows the error with the
MediaStream tracks still live and both AudioContexts still open --
nothing is rolled back, contradicting the claim. -/
theorem claim_C6_connect_no_rollback :
    (connect { micOk := true, transportOk := false }).1
        = .error "TransportError"
    ∧ (connect { micOk := true, transportOk := false }).2.streamTracksLive
        = some true
    ∧ (connect { micOk := true, transportOk := false }).2.inputContext
        = some CtxState.running
    ∧ (connect { micOk := true, transportOk := false }).2.audioContext
        = some CtxState.running :=
  ⟨rfl, rfl, rfl, rfl⟩

end SiteVoice
